import Mathlib

/-!
Verification of the ragno decompose_corpus pipeline
(src/docs/ignore/ragno/decompose_corpus.py).

The Python source converts a list of text-chunk records into semantic
units, entities and relationships.  Input records are Python dicts; we
model them as insertion-ordered association lists of string fields.
`TextChunk(**chunk_data)` raises a TypeError when a required keyword is
missing or an unexpected keyword is present; we model this fallible
construction with `Option`, and `decompose_corpus` therefore returns
`Option DecomposeResult` (a `none` result models the uncaught exception
aborting the whole run with no partial result).  The Python `entities`
dict (name-keyed, insertion-ordered, value overwritten in place on key
collision) is modelled by `dictInsert` on an association list.
-/

/-- An input record: a Python dict with string keys and string values,
kept in insertion order. -/
abbrev Record := List (String × String)

/-- Embeds the Python class TextChunk (fields content, source). -/
structure TextChunk where
  content : String
  source : String
deriving Repr, DecidableEq

/-- Embeds the Python class SemanticUnit (fields text, summary, source). -/
structure SemanticUnit where
  text : String
  summary : String
  source : String
deriving Repr, DecidableEq

/-- Embeds the Python class Entity (fields name, is_entry_point,
the latter defaulting to True). -/
structure Entity where
  name : String
  is_entry_point : Bool := true
deriving Repr, DecidableEq

/-- Embeds the Python class Relationship (fields description, source, target). -/
structure Relationship where
  description : String
  source : String
  target : String
deriving Repr, DecidableEq

/-- Embeds TextChunk(**chunk_data): succeeds exactly when the record's
keys are exactly the two expected keywords content and source; a missing
required keyword or an unexpected keyword raises TypeError, modelled as
`none`. -/
def buildTextChunk (r : Record) : Option TextChunk :=
  if r.all (fun kv => kv.1 == "content" || kv.1 == "source") then
    match List.lookup "content" r, List.lookup "source" r with
    | some c, some s => some ⟨c, s⟩
    | _, _ => none
  else none

/-- A record is well formed when it has the fields content and source and
no others (the shape accepted by TextChunk(**chunk_data)). -/
def wellFormedRecord (r : Record) : Bool :=
  (List.lookup "content" r).isSome && (List.lookup "source" r).isSome &&
    r.all (fun kv => kv.1 == "content" || kv.1 == "source")

/-- The content field of a record (defaulting to "" when absent). -/
def chunkContent (r : Record) : String :=
  (List.lookup "content" r).getD ""

/-- The source field of a record (defaulting to "" when absent). -/
def chunkSource (r : Record) : String :=
  (List.lookup "source" r).getD ""

/-- Embeds extract_semantic_units: mocks one unit per chunk, echoing the
chunk's content and source with a fixed placeholder summary. -/
def extract_semantic_units (chunk : TextChunk) : List SemanticUnit :=
  [⟨chunk.content, "Mock summary", chunk.source⟩]

/-- State-passing view of extract_semantic_units: the pair of the units
produced and the chunk as it stands after the call.  The Python body only
reads chunk.content and chunk.source and performs no assignment and no
I/O, so the post-state chunk is the input chunk. -/
def extract_semantic_units_st (chunk : TextChunk) : List SemanticUnit × TextChunk :=
  (extract_semantic_units chunk, chunk)

/-- Embeds extract_entities: mocks one fixed entity per unit. -/
def extract_entities (_unit : SemanticUnit) : List Entity :=
  [⟨"MockEntity", true⟩]

/-- Embeds extract_relationships: mocks one fixed relationship per unit. -/
def extract_relationships (_unit : SemanticUnit) : List Relationship :=
  [⟨"MockRel", "MockEntityA", "MockEntityB"⟩]

/-- The entities dict of decompose_corpus, name-keyed and kept in
insertion order. -/
abbrev EntityDict := List (String × Entity)

/-- Whether the dict already holds the key (Python: k in d). -/
def dictHasKey (d : EntityDict) (k : String) : Bool :=
  d.any (fun kv => kv.1 == k)

/-- Reading a key from the dict (Python: d[k], as an Option). -/
def dictLookup (d : EntityDict) (k : String) : Option Entity :=
  match d with
  | [] => none
  | kv :: rest => if kv.1 == k then some kv.2 else dictLookup rest k

/-- Embeds the Python assignment entities[entity.name] = entity: when the
key is present its value is overwritten in place (the key keeps its
original position), otherwise the pair is appended at the end. -/
def dictInsert (d : EntityDict) (k : String) (v : Entity) : EntityDict :=
  if dictHasKey d k then
    d.map (fun kv => if kv.1 == k then (k, v) else kv)
  else d ++ [(k, v)]

/-- The accumulator of the loops of decompose_corpus. -/
structure DecomposeState where
  units : List SemanticUnit
  entities : EntityDict
  relationships : List Relationship
deriving Repr, DecidableEq

/-- The body of the inner loop of decompose_corpus for one semantic unit:
append the unit, merge its entities into the dict, append its
relationships. -/
def processUnit (st : DecomposeState) (unit : SemanticUnit) : DecomposeState :=
  let st1 := { st with units := st.units ++ [unit] }
  let st2 := (extract_entities unit).foldl
    (fun s e => { s with entities := dictInsert s.entities e.name e }) st1
  (extract_relationships unit).foldl
    (fun s rel => { s with relationships := s.relationships ++ [rel] }) st2

/-- The body of the outer loop of decompose_corpus for one chunk. -/
def processChunk (st : DecomposeState) (chunk : TextChunk) : DecomposeState :=
  (extract_semantic_units chunk).foldl processUnit st

/-- The loop of decompose_corpus over the input records; `none` models
the TypeError from TextChunk(**chunk_data) propagating uncaught. -/
def decomposeAux : DecomposeState → List Record → Option DecomposeState
  | st, [] => some st
  | st, r :: rs =>
    match buildTextChunk r with
    | none => none
    | some chunk => decomposeAux (processChunk st chunk) rs

/-- The result dict of decompose_corpus: units, entities (the dict's
values in order), relationships. -/
structure DecomposeResult where
  units : List SemanticUnit
  entities : List Entity
  relationships : List Relationship
deriving Repr, DecidableEq

/-- Embeds decompose_corpus. -/
def decompose_corpus (text_chunks : List Record) : Option DecomposeResult :=
  (decomposeAux ⟨[], [], []⟩ text_chunks).map fun st =>
    { units := st.units
      entities := st.entities.map Prod.snd
      relationships := st.relationships }

/-- The semantic unit the baseline extractor produces for a well-formed
record. -/
def unitOfRecord (r : Record) : SemanticUnit :=
  ⟨chunkContent r, "Mock summary", chunkSource r⟩

/-- The single entity the baseline entity extractor produces. -/
def mockEntity : Entity := ⟨"MockEntity", true⟩

/-- The single relationship the baseline relationship extractor produces. -/
def mockRel : Relationship := ⟨"MockRel", "MockEntityA", "MockEntityB"⟩

/-- The sample input of the script's demonstration invocation. -/
def sample_chunks : List Record :=
  [[("content", "Hinton invented backprop."), ("source", "doc1.txt")],
   [("content", "LeCun developed convolutional nets."), ("source", "doc2.txt")]]

/-- A one-record well-formed input used to instantiate general theorems. -/
def singleRecord : Record := [("content", "a"), ("source", "s")]

/-- The pipeline's output on [singleRecord]. -/
def singleResult : DecomposeResult :=
  { units := [⟨"a", "Mock summary", "s"⟩]
    entities := [mockEntity]
    relationships := [mockRel] }

/-- A record lacking the source field. -/
def recordMissingSource : Record := [("content", "a")]

/-- A record with an extra field beyond content and source. -/
def recordExtraField : Record :=
  [("content", "a"), ("source", "s"), ("extra", "x")]

-- Theorems

/-- A well-formed record builds a chunk from its content and source fields. -/
theorem buildTextChunk_of_wf (r : Record) (h : wellFormedRecord r = true) :
    buildTextChunk r = some ⟨chunkContent r, chunkSource r⟩ := by
  unfold wellFormedRecord at h
  simp only [Bool.and_eq_true] at h
  obtain ⟨⟨h1, h2⟩, h3⟩ := h
  obtain ⟨c, hc⟩ := Option.isSome_iff_exists.mp h1
  obtain ⟨s, hs⟩ := Option.isSome_iff_exists.mp h2
  unfold buildTextChunk chunkContent chunkSource
  rw [if_pos h3, hc, hs]
  simp

/-- Only well-formed records build a chunk. -/
theorem wf_of_buildTextChunk (r : Record) (ch : TextChunk)
    (h : buildTextChunk r = some ch) : wellFormedRecord r = true := by
  unfold buildTextChunk at h
  by_cases hall : r.all (fun kv => kv.1 == "content" || kv.1 == "source") = true
  · rw [if_pos hall] at h
    unfold wellFormedRecord
    cases hc : List.lookup "content" r with
    | none => rw [hc] at h; simp at h
    | some c =>
      cases hs : List.lookup "source" r with
      | none => rw [hc, hs] at h; simp at h
      | some s => simp [hc, hs, hall]
  · rw [if_neg hall] at h
    simp at h

/-- Processing one chunk appends its mock unit and relationship and
inserts the mock entity. -/
theorem processChunk_eq (st : DecomposeState) (chunk : TextChunk) :
    processChunk st chunk =
      { units := st.units ++ [⟨chunk.content, "Mock summary", chunk.source⟩]
        entities := dictInsert st.entities "MockEntity" mockEntity
        relationships := st.relationships ++ [mockRel] } := rfl

/-- After inserting a key the dict holds it. -/
theorem dictHasKey_dictInsert (d : EntityDict) (k : String) (v : Entity) :
    dictHasKey (dictInsert d k v) k = true := by
  unfold dictInsert
  by_cases h : dictHasKey d k = true
  · rw [if_pos h]
    unfold dictHasKey at h ⊢
    rw [List.any_eq_true] at h ⊢
    obtain ⟨kv, hmem, hk⟩ := h
    exact ⟨(k, v), List.mem_map.mpr ⟨kv, hmem, by simp [hk]⟩, by simp⟩
  · rw [if_neg h]
    unfold dictHasKey
    simp

/-- Inserting the same key-value pair twice is the same as inserting it
once. -/
theorem dictInsert_idem (d : EntityDict) (k : String) (v : Entity) :
    dictInsert (dictInsert d k v) k v = dictInsert d k v := by
  have hk := dictHasKey_dictInsert d k v
  conv_lhs => rw [dictInsert, if_pos hk]
  by_cases h : dictHasKey d k = true
  · rw [dictInsert, if_pos h, List.map_map]
    apply List.map_congr_left
    intro kv _
    simp only [Function.comp_apply]
    by_cases hkv : kv.1 = k
    · simp [hkv]
    · simp [hkv]
  · rw [dictInsert, if_neg h, List.map_append]
    unfold dictHasKey at h
    rw [List.any_eq_true] at h
    push_neg at h
    have h1 : d.map (fun kv => if kv.1 == k then (k, v) else kv) = d := by
      have hcongr := List.map_congr_left
        (f := fun kv : String × Entity => if kv.1 == k then (k, v) else kv)
        (g := id) (l := d) ?_
      · simpa using hcongr
      · intro kv hmem
        have hne := h kv hmem
        simp only [Bool.not_eq_true, beq_eq_false_iff_ne] at hne
        simp [hne]
    rw [h1]
    simp

/-- Folding a repeated insertion of the same pair over a list stabilises
after the first insertion. -/
theorem foldl_dictInsert_fix {α : Type} (l : List α) (d : EntityDict)
    (k : String) (v : Entity) :
    l.foldl (fun acc _ => dictInsert acc k v) (dictInsert d k v) =
      dictInsert d k v := by
  induction l with
  | nil => rfl
  | cons a as ih => rw [List.foldl_cons, dictInsert_idem]; exact ih

/-- The loop of decompose_corpus on well-formed records: one unit and one
relationship per record, a repeated insertion of the mock entity. -/
theorem decomposeAux_of_wf (l : List Record)
    (h : ∀ r ∈ l, wellFormedRecord r = true) (st : DecomposeState) :
    decomposeAux st l = some
      { units := st.units ++ l.map unitOfRecord
        entities := l.foldl (fun d _ => dictInsert d "MockEntity" mockEntity)
          st.entities
        relationships := st.relationships ++ l.map (fun _ => mockRel) } := by
  induction l generalizing st with
  | nil => simp [decomposeAux]
  | cons r rs ih =>
    have hwf := h r (List.mem_cons_self r rs)
    have hstep : decomposeAux st (r :: rs) =
        decomposeAux (processChunk st ⟨chunkContent r, chunkSource r⟩) rs := by
      rw [decomposeAux, buildTextChunk_of_wf r hwf]
    rw [hstep, processChunk_eq, ih (fun x hx => h x (List.mem_cons_of_mem r hx))]
    simp [unitOfRecord, List.append_assoc]

/-- decompose_corpus on well-formed records: one unit per record in input
order, the single collapsed mock entity for non-empty input, one mock
relationship per record. -/
theorem decompose_corpus_of_wf (l : List Record)
    (h : ∀ r ∈ l, wellFormedRecord r = true) :
    decompose_corpus l = some
      { units := l.map unitOfRecord
        entities := if l.isEmpty then [] else [mockEntity]
        relationships := l.map (fun _ => mockRel) } := by
  unfold decompose_corpus
  rw [decomposeAux_of_wf l h ⟨[], [], []⟩]
  cases l with
  | nil => rfl
  | cons r rs =>
    simp only [List.foldl_cons]
    rw [foldl_dictInsert_fix]
    rfl

/-- Reading the overwritten key after the in-place overwrite yields the
new value exactly when the key was present. -/
theorem dictLookup_map_replace (d : EntityDict) (k : String) (v : Entity) :
    dictLookup (d.map (fun kv => if kv.1 == k then (k, v) else kv)) k =
      (dictLookup d k).map (fun _ => v) := by
  induction d with
  | nil => rfl
  | cons a as ih =>
    simp only [List.map_cons]
    cases hk : a.1 == k with
    | true => simp [dictLookup, hk]
    | false => simp [dictLookup, hk]; simpa using ih

/-- A dict holds a key exactly when reading it succeeds. -/
theorem dictLookup_isSome_iff_hasKey (d : EntityDict) (k : String) :
    (dictLookup d k).isSome = dictHasKey d k := by
  induction d with
  | nil => rfl
  | cons a as ih =>
    cases hk : a.1 == k with
    | true => simp [dictLookup, dictHasKey, List.any_cons, hk]
    | false =>
      simp only [dictLookup, dictHasKey, List.any_cons, hk, Bool.false_or,
        if_neg (by simp [hk] : ¬(a.1 == k) = true)]
      simpa [dictHasKey] using ih

/-- Reading a key from an appended singleton when the key is absent from
the front part. -/
theorem dictLookup_append_singleton (d : EntityDict) (k : String) (v : Entity)
    (h : dictLookup d k = none) :
    dictLookup (d ++ [(k, v)]) k = some v := by
  induction d with
  | nil => simp [dictLookup]
  | cons a as ih =>
    rw [List.cons_append]
    rw [dictLookup] at h ⊢
    cases hk : a.1 == k with
    | true => rw [if_pos hk] at h; simp at h
    | false =>
      rw [if_neg (by simp [hk])] at h ⊢
      exact ih h

/-- decompose_corpus succeeds only when every input record is well
formed. -/
theorem wf_of_decomposeAux (l : List Record) (st st' : DecomposeState)
    (h : decomposeAux st l = some st') : ∀ r ∈ l, wellFormedRecord r = true := by
  induction l generalizing st with
  | nil => intro r hr; simp at hr
  | cons r rs ih =>
    intro x hx
    rw [decomposeAux] at h
    cases hb : buildTextChunk r with
    | none => rw [hb] at h; simp at h
    | some ch =>
      rw [hb] at h
      rcases List.mem_cons.mp hx with hx | hx
      · exact hx ▸ wf_of_buildTextChunk r ch hb
      · exact ih (processChunk st ch) h x hx

/-- When some record of the input cannot build a chunk, the whole run of
decompose_corpus aborts with no result. -/
theorem decompose_corpus_none_of_bad (l : List Record) (r : Record)
    (hr : r ∈ l) (hb : buildTextChunk r = none) :
    decompose_corpus l = none := by
  have haux : ∀ (m : List Record), r ∈ m → ∀ st, decomposeAux st m = none := by
    intro m
    induction m with
    | nil => intro hm st; simp at hm
    | cons a as ih =>
      intro hm st
      rw [decomposeAux]
      rcases List.mem_cons.mp hm with rfl | hmem
      · rw [hb]
      · cases hba : buildTextChunk a with
        | none => rfl
        | some ch => exact ih hmem (processChunk st ch)
  unfold decompose_corpus
  rw [haux l hr]
  rfl

/-- C1: on a well-formed input sequence decompose_corpus succeeds and
returns exactly one SemanticUnit per input chunk, in input order: the
i-th unit is built from the i-th record, its text being the record's
content field verbatim, its source the record's source field, and its
summary the fixed placeholder "Mock summary"; in particular the number
of units equals the number of input chunks. -/
theorem decompose_units_per_chunk (l : List Record)
    (h : ∀ r ∈ l, wellFormedRecord r = true) :
    ∃ res, decompose_corpus l = some res ∧
      res.units = l.map unitOfRecord ∧
      res.units.length = l.length ∧
      (∀ i : Nat, res.units[i]? = (l[i]?).map unitOfRecord) ∧
      ∀ u ∈ res.units, u.summary = "Mock summary" := by
  refine ⟨_, decompose_corpus_of_wf l h, rfl, by simp, ?_, ?_⟩
  · intro i
    simp
  · intro u hu
    simp only [List.mem_map] at hu
    obtain ⟨r, _, hr⟩ := hu
    rw [← hr]
    rfl

/-- Witness for C1 at the script's sample input. -/
theorem decompose_units_per_chunk_witness :
    (∀ r ∈ sample_chunks, wellFormedRecord r = true) ∧
    ∃ res, decompose_corpus sample_chunks = some res ∧
      res.units = sample_chunks.map unitOfRecord ∧
      res.units.length = sample_chunks.length ∧
      (∀ i : Nat, res.units[i]? = (sample_chunks[i]?).map unitOfRecord) ∧
      ∀ u ∈ res.units, u.summary = "Mock summary" :=
  ⟨by decide, decompose_units_per_chunk sample_chunks (by decide)⟩

/-- C2: whenever decompose_corpus returns a result, no two records of its
entities sequence carry the same name. -/
theorem decompose_entities_names_nodup (l : List Record)
    (res : DecomposeResult) (h : decompose_corpus l = some res) :
    (res.entities.map Entity.name).Nodup := by
  have hwf : ∀ r ∈ l, wellFormedRecord r = true := by
    unfold decompose_corpus at h
    cases haux : decomposeAux ⟨[], [], []⟩ l with
    | none => rw [haux] at h; simp at h
    | some st => exact wf_of_decomposeAux l _ st haux
  rw [decompose_corpus_of_wf l hwf] at h
  obtain rfl := ((Option.some.injEq _ _).mp h).symm
  by_cases he : l.isEmpty
  · simp [he]
  · simp [he]

/-- Witness for C2 at a one-record input. -/
theorem decompose_entities_names_nodup_witness :
    decompose_corpus [singleRecord] = some singleResult ∧
    (singleResult.entities.map Entity.name).Nodup :=
  ⟨by decide, decompose_entities_names_nodup [singleRecord] singleResult (by decide)⟩

/-- C3: on the script's two-chunk sample input, decompose_corpus yields
exactly the two echoed unit texts, the single collapsed entity name
MockEntity, and the two identical relationship descriptions MockRel. -/
theorem decompose_sample_output :
    decompose_corpus sample_chunks = some
      { units := [⟨"Hinton invented backprop.", "Mock summary", "doc1.txt"⟩,
                  ⟨"LeCun developed convolutional nets.", "Mock summary", "doc2.txt"⟩]
        entities := [⟨"MockEntity", true⟩]
        relationships := [mockRel, mockRel] } ∧
    (decompose_corpus sample_chunks).map
        (fun res => (res.units.map SemanticUnit.text,
                     res.entities.map Entity.name,
                     res.relationships.map Relationship.description)) =
      some (["Hinton invented backprop.", "LeCun developed convolutional nets."],
            ["MockEntity"], ["MockRel", "MockRel"]) := by
  constructor
  · decide
  · decide

/-- C4: decompose_corpus is deterministic and stateless across runs: on
structurally equal inputs two invocations return structurally identical
outputs (the embedding is a pure function of the input alone). -/
theorem decompose_deterministic (l1 l2 : List Record) (h : l1 = l2) :
    decompose_corpus l1 = decompose_corpus l2 := by
  rw [h]

/-- Witness for C4 at the sample input. -/
theorem decompose_deterministic_witness :
    sample_chunks = sample_chunks ∧
    decompose_corpus sample_chunks = decompose_corpus sample_chunks :=
  ⟨rfl, decompose_deterministic sample_chunks sample_chunks rfl⟩

/-- C5: an input holding a record that lacks the content field or the
source field makes decompose_corpus raise the chunk-construction error
(modelled by none) and return no result at all, in particular no partial
result from the records preceding the malformed one. -/
theorem decompose_missing_field_fails (l : List Record) (r : Record)
    (hr : r ∈ l)
    (hmiss : List.lookup "content" r = none ∨ List.lookup "source" r = none) :
    decompose_corpus l = none := by
  apply decompose_corpus_none_of_bad l r hr
  unfold buildTextChunk
  by_cases hall : r.all (fun kv => kv.1 == "content" || kv.1 == "source") = true
  · rw [if_pos hall]
    cases hc : List.lookup "content" r with
    | none => cases hs : List.lookup "source" r <;> rfl
    | some c =>
      cases hs : List.lookup "source" r with
      | none => rfl
      | some s =>
        exfalso
        rcases hmiss with hm | hm
        · rw [hm] at hc; exact Option.noConfusion hc
        · rw [hm] at hs; exact Option.noConfusion hs
  · rw [if_neg hall]

/-- Witness for C5: a two-record input whose second record lacks the
source field yields no result, not a partial one from the first
well-formed record. -/
theorem decompose_missing_field_fails_witness :
    recordMissingSource ∈ [singleRecord, recordMissingSource] ∧
    List.lookup "source" recordMissingSource = none ∧
    decompose_corpus [singleRecord, recordMissingSource] = none :=
  ⟨by decide, by decide,
    decompose_missing_field_fails [singleRecord, recordMissingSource]
      recordMissingSource (by decide) (Or.inr (by decide))⟩

/-- C6: the entity aggregation structure of decompose_corpus is an
ordered name-keyed mapping with last-write-wins semantics: after
inserting an entity under a name, reading that name yields the
just-inserted record (so of two entities sharing a name the later one is
stored), and the key sequence keeps first-insertion order, unchanged when
the name was already present and extended at the end otherwise. -/
theorem dictInsert_ordered_last_write_wins (d : EntityDict) (k : String)
    (v : Entity) :
    dictLookup (dictInsert d k v) k = some v ∧
    (dictInsert d k v).map Prod.fst =
      (if dictHasKey d k then d.map Prod.fst else d.map Prod.fst ++ [k]) := by
  constructor
  · by_cases h : dictHasKey d k = true
    · rw [dictInsert, if_pos h, dictLookup_map_replace]
      have hsome : (dictLookup d k).isSome = true := by
        rw [dictLookup_isSome_iff_hasKey]; exact h
      obtain ⟨b, hb⟩ := Option.isSome_iff_exists.mp hsome
      rw [hb]
      rfl
    · rw [dictInsert, if_neg h]
      apply dictLookup_append_singleton
      have : (dictLookup d k).isSome = false := by
        rw [dictLookup_isSome_iff_hasKey]
        exact Bool.not_eq_true _ ▸ h
      exact Option.not_isSome_iff_eq_none.mp (by simp [this])
  · by_cases h : dictHasKey d k = true
    · rw [dictInsert, if_pos h, if_pos h, List.map_map]
      apply List.map_congr_left
      intro kv _
      simp only [Function.comp_apply]
      by_cases hkv : kv.1 = k
      · simp [hkv]
      · simp [hkv]
    · rw [dictInsert, if_neg h, if_neg h]
      simp

/-- C7: the baseline relationship extractor returns exactly one
relationship per unit, with the fixed description MockRel and endpoint
names MockEntityA and MockEntityB that differ from every name the entity
extractor produces; decompose_corpus appends them without deduplication
or endpoint validation, so on well-formed input it succeeds with exactly
one relationship per unit whose endpoints dangle outside the entity
set. -/
theorem decompose_relationships_dangling (l : List Record)
    (h : ∀ r ∈ l, wellFormedRecord r = true) :
    (∀ u, extract_relationships u = [mockRel]) ∧
    (∀ u e, e ∈ extract_entities u →
      e.name ≠ mockRel.source ∧ e.name ≠ mockRel.target) ∧
    ∃ res, decompose_corpus l = some res ∧
      res.relationships = l.map (fun _ => mockRel) ∧
      res.relationships.length = res.units.length ∧
      ∀ rel ∈ res.relationships,
        rel.description = "MockRel" ∧
        rel.source ∉ res.entities.map Entity.name ∧
        rel.target ∉ res.entities.map Entity.name := by
  refine ⟨fun u => rfl, ?_, _, decompose_corpus_of_wf l h, rfl, by simp, ?_⟩
  · intro u e he
    simp only [extract_entities, List.mem_singleton] at he
    rw [he]
    constructor
    · decide
    · decide
  · intro rel hrel
    simp only [List.mem_map] at hrel
    obtain ⟨r, _, hr⟩ := hrel
    rw [← hr]
    refine ⟨rfl, ?_, ?_⟩
    · by_cases he : l.isEmpty
      · simp [he]
      · simp only [he, if_neg (by simpa using he)]
        decide
    · by_cases he : l.isEmpty
      · simp [he]
      · simp only [he, if_neg (by simpa using he)]
        decide

/-- Witness for C7 at the sample input. -/
theorem decompose_relationships_dangling_witness :
    (∀ r ∈ sample_chunks, wellFormedRecord r = true) ∧
    ((∀ u, extract_relationships u = [mockRel]) ∧
    (∀ u e, e ∈ extract_entities u →
      e.name ≠ mockRel.source ∧ e.name ≠ mockRel.target) ∧
    ∃ res, decompose_corpus sample_chunks = some res ∧
      res.relationships = sample_chunks.map (fun _ => mockRel) ∧
      res.relationships.length = res.units.length ∧
      ∀ rel ∈ res.relationships,
        rel.description = "MockRel" ∧
        rel.source ∉ res.entities.map Entity.name ∧
        rel.target ∉ res.entities.map Entity.name) :=
  ⟨by decide, decompose_relationships_dangling sample_chunks (by decide)⟩

/-- C8: the unit extractor does not mutate its input chunk and, being a
pure function of the chunk in this embedding, performs no I/O: the
post-state chunk of the state-passing view equals the input chunk, field
by field, and its units agree with the pure extractor. -/
theorem extract_semantic_units_no_mutation (chunk : TextChunk) :
    (extract_semantic_units_st chunk).2 = chunk ∧
    (extract_semantic_units_st chunk).2.content = chunk.content ∧
    (extract_semantic_units_st chunk).2.source = chunk.source ∧
    (extract_semantic_units_st chunk).1 = extract_semantic_units chunk :=
  ⟨rfl, rfl, rfl, rfl⟩

/-- C9: on the empty input sequence decompose_corpus succeeds and every
part of the result is empty. -/
theorem decompose_empty_input :
    decompose_corpus [] =
      some { units := [], entities := [], relationships := [] } := rfl

/-- C10: a record carrying any field beyond content and source also makes
the chunk construction fail (unexpected keyword), aborting the whole run
of decompose_corpus with no result: a well-formed record has exactly the
two fields content and source, not at least those two. -/
theorem decompose_extra_field_fails (l : List Record) (r : Record)
    (k v : String) (hr : r ∈ l) (hkv : (k, v) ∈ r)
    (hk1 : k ≠ "content") (hk2 : k ≠ "source") :
    decompose_corpus l = none := by
  apply decompose_corpus_none_of_bad l r hr
  unfold buildTextChunk
  have hall : ¬(r.all (fun kv => kv.1 == "content" || kv.1 == "source") = true) := by
    rw [List.all_eq_true]
    push_neg
    exact ⟨(k, v), hkv, by simp [hk1, hk2]⟩
  rw [if_neg hall]

/-- Witness for C10: a record with the extra field extra aborts the
run. -/
theorem decompose_extra_field_fails_witness :
    recordExtraField ∈ [recordExtraField] ∧
    ("extra", "x") ∈ recordExtraField ∧
    decompose_corpus [recordExtraField] = none :=
  ⟨by decide, by decide,
    decompose_extra_field_fails [recordExtraField] recordExtraField
      "extra" "x" (by decide) (by decide) (by decide) (by decide)⟩
